import Mathlib

/-!
Verification of the breaking-news video-generator module.

Shallow embedding of the repository's source:
  * components/video-generator.tsx : wrapText, drawFrame, handleGenerate
  * app/api/news/route.ts          : parseGviz, parseCsv, splitCsvLine

JS strings are modelled as `List Char`; canvas text metrics
(ctx.measureText(s).width) are an abstract oracle `w : List Char → ℚ`;
JS numbers are modelled as `ℚ` (ℕ for indices and counters).
-/

set_option maxHeartbeats 1000000

/-! ## Text layout engine: wrapText (video-generator.tsx lines 215-247) -/

/-- The ellipsis character appended by the truncation loop. -/
def ell : List Char := ['…']

/-- Body of the truncation loop
`while (ctx.measureText(rest + "…").width > maxWidth && rest.length > 0) rest = rest.slice(0, -1)`
run with explicit fuel; `rest.slice(0, -1)` drops the last character. -/
def truncGo (w : List Char → ℚ) (maxWidth : ℚ) : ℕ → List Char → List Char
  | 0, rest => rest
  | fuel + 1, rest =>
    if maxWidth < w (rest ++ ell) ∧ rest ≠ [] then truncGo w maxWidth fuel rest.dropLast
    else rest

/-- The truncation loop, started with fuel `rest.length`; the theorem
`wrapText_loop_bounds` shows this fuel always suffices to reach the
loop's exit condition. -/
def truncLoop (w : List Char → ℚ) (maxWidth : ℚ) (rest : List Char) : List Char :=
  truncGo w maxWidth rest.length rest

/-- JS `text.split(" ")`: split on every single space, keeping empty pieces. -/
def splitWords : List Char → List (List Char)
  | [] => [[]]
  | c :: cs =>
    if c = ' ' then [] :: splitWords cs
    else
      match splitWords cs with
      | [] => [[c]]
      | wrd :: ws => (c :: wrd) :: ws

/-- JS `words.slice(n).join(" ")`. -/
def joinWords (ws : List (List Char)) : List Char := List.intercalate [' '] ws

/-- The for-loop of wrapText over the word list.  State: remaining words,
current index `n`, accumulated `line`, committed-line counter `c`.
Result: the fillText calls as (string, lineCount) pairs in draw order,
with a flag recording whether the truncation branch ran.
`if line = [] then wd else line ++ ' ' :: wd` is the source's
`testLine = line ? line + " " + words[n] : words[n]`. -/
def wrapLoop (w : List Char → ℚ) (maxWidth : ℚ) (maxLines : ℕ) :
    List (List Char) → ℕ → List Char → ℕ → List (List Char × ℕ) × Bool
  | [], _, line, c => ([(line, c)], false)
  | wd :: ws, n, line, c =>
    if maxWidth < w (if line = [] then wd else line ++ ' ' :: wd) ∧ 0 < n then
      if maxLines - 1 ≤ c + 1 then
        ([(line, c), (truncLoop w maxWidth (joinWords (wd :: ws)) ++ ell, c + 1)], true)
      else
        ((line, c) :: (wrapLoop w maxWidth maxLines ws (n + 1) wd (c + 1)).1,
          (wrapLoop w maxWidth maxLines ws (n + 1) wd (c + 1)).2)
    else wrapLoop w maxWidth maxLines ws (n + 1) (if line = [] then wd else line ++ ' ' :: wd) c

/-- wrapText(ctx, text, x, y, maxWidth, lineHeight, maxLines): the emitted
fillText calls; draw coordinates are `(x, y + lineCount * lineHeight)`,
recovered from the recorded lineCount of each pair. -/
def wrapTextOps (w : List Char → ℚ) (text : List Char) (maxWidth : ℚ) (maxLines : ℕ) :
    List (List Char × ℕ) × Bool :=
  wrapLoop w maxWidth maxLines (splitWords text) 0 [] 0

/-- The drawn line strings, in draw order. -/
def wrapLines (w : List Char → ℚ) (text : List Char) (maxWidth : ℚ) (maxLines : ℕ) :
    List (List Char) :=
  (wrapTextOps w text maxWidth maxLines).1.map Prod.fst

/-- Whether the truncation branch ran. -/
def wrapTruncated (w : List Char → ℚ) (text : List Char) (maxWidth : ℚ) (maxLines : ℕ) : Bool :=
  (wrapTextOps w text maxWidth maxLines).2

/-- Concrete width oracle: each character one unit wide. -/
def lenW (l : List Char) : ℚ := l.length

/-- Concrete width oracle: each character two units wide. -/
def dblW (l : List Char) : ℚ := ((2 * l.length : ℕ) : ℚ)

lemma truncGo_post (w : List Char → ℚ) (maxWidth : ℚ) :
    ∀ fuel rest, rest.length ≤ fuel →
      truncGo w maxWidth fuel rest = [] ∨
        ¬ maxWidth < w (truncGo w maxWidth fuel rest ++ ell) := by
  intro fuel
  induction fuel with
  | zero =>
    intro rest hr
    have : rest = [] := List.eq_nil_of_length_eq_zero (Nat.le_zero.mp hr)
    subst this
    left
    rfl
  | succ fuel ih =>
    intro rest hr
    by_cases hg : maxWidth < w (rest ++ ell) ∧ rest ≠ []
    · have hlen : rest.dropLast.length ≤ fuel := by
        rw [List.length_dropLast]
        omega
      simpa [truncGo, hg] using ih rest.dropLast hlen
    · rcases not_and_or.mp hg with h | h
      · right
        simpa [truncGo, hg] using h
      · left
        have : rest = [] := not_not.mp h
        simp [truncGo, hg, this]

lemma truncLoop_post (w : List Char → ℚ) (maxWidth : ℚ) (rest : List Char) :
    truncLoop w maxWidth rest = [] ∨
      ¬ maxWidth < w (truncLoop w maxWidth rest ++ ell) :=
  truncGo_post w maxWidth rest.length rest le_rfl

lemma truncGo_fuel (w : List Char → ℚ) (maxWidth : ℚ) :
    ∀ fuel rest, rest.length ≤ fuel →
      truncGo w maxWidth fuel rest = truncLoop w maxWidth rest := by
  intro fuel
  induction fuel with
  | zero =>
    intro rest hr
    have : rest = [] := List.eq_nil_of_length_eq_zero (Nat.le_zero.mp hr)
    subst this
    rfl
  | succ fuel ih =>
    intro rest hr
    by_cases hg : maxWidth < w (rest ++ ell) ∧ rest ≠ []
    · have hne : rest ≠ [] := hg.2
      obtain ⟨k, hk⟩ : ∃ k, rest.length = k + 1 :=
        Nat.exists_eq_succ_of_ne_zero (by simpa using List.length_pos.mpr hne |>.ne')
      have hdl : rest.dropLast.length = k := by
        rw [List.length_dropLast, hk]
        omega
      have h1 : truncGo w maxWidth (fuel + 1) rest = truncGo w maxWidth fuel rest.dropLast := by
        simp [truncGo, hg]
      have h2 : truncLoop w maxWidth rest = truncGo w maxWidth k rest.dropLast := by
        unfold truncLoop
        rw [hk]
        simp [truncGo, hg]
      rw [h1, h2, ih rest.dropLast (by omega)]
      unfold truncLoop
      rw [hdl]
    · cases rest with
      | nil =>
        have h1 : truncGo w maxWidth (fuel + 1) ([] : List Char) = [] := by
          simp only [truncGo, if_neg hg]
        rw [h1]
        rfl
      | cons a t =>
        have h1 : truncGo w maxWidth (fuel + 1) (a :: t) = a :: t := by
          simp only [truncGo, if_neg hg]
        have h2 : truncLoop w maxWidth (a :: t) = a :: t := by
          unfold truncLoop
          simp only [List.length_cons, truncGo, if_neg hg]
        rw [h1, h2]

lemma wrapLoop_ne_nil (w : List Char → ℚ) (maxWidth : ℚ) (maxLines : ℕ) :
    ∀ ws n line c, (wrapLoop w maxWidth maxLines ws n line c).1 ≠ [] := by
  intro ws
  induction ws with
  | nil =>
    intro n line c
    simp [wrapLoop]
  | cons wd ws ih =>
    intro n line c
    by_cases hA : maxWidth < w (if line = [] then wd else line ++ ' ' :: wd) ∧ 0 < n
    · by_cases hB : maxLines - 1 ≤ c + 1
      · simp [wrapLoop, hA, hB]
      · simp [wrapLoop, hA, hB]
    · simpa [wrapLoop, hA] using ih (n + 1) (if line = [] then wd else line ++ ' ' :: wd) c

lemma wrapLoop_len_le (w : List Char → ℚ) (maxWidth : ℚ) (maxLines : ℕ) :
    ∀ ws n line c, c + 2 ≤ maxLines →
      (wrapLoop w maxWidth maxLines ws n line c).1.length + c ≤ maxLines := by
  intro ws
  induction ws with
  | nil =>
    intro n line c hc
    simp [wrapLoop]
    omega
  | cons wd ws ih =>
    intro n line c hc
    by_cases hA : maxWidth < w (if line = [] then wd else line ++ ' ' :: wd) ∧ 0 < n
    · by_cases hB : maxLines - 1 ≤ c + 1
      · simp [wrapLoop, hA, hB]
        omega
      · have hstep : (c + 1) + 2 ≤ maxLines := by omega
        have := ih (n + 1) wd (c + 1) hstep
        simp only [wrapLoop, if_pos hA, if_neg hB, List.length_cons]
        omega
    · simpa [wrapLoop, hA] using ih (n + 1) (if line = [] then wd else line ++ ' ' :: wd) c hc

lemma getLast?_cons_ne {α : Type} (a : α) {l : List α} (h : l ≠ []) :
    (a :: l).getLast? = l.getLast? := by
  cases l with
  | nil => exact absurd rfl h
  | cons b t => exact List.getLast?_cons_cons

lemma wrapLoop_trunc_last (w : List Char → ℚ) (maxWidth : ℚ) (maxLines : ℕ) :
    ∀ ws n line c, (wrapLoop w maxWidth maxLines ws n line c).2 = true →
      ∃ pre, ((wrapLoop w maxWidth maxLines ws n line c).1.map Prod.fst).getLast? =
          some (pre ++ ell) ∧
        (w ell ≤ maxWidth → w (pre ++ ell) ≤ maxWidth) := by
  intro ws
  induction ws with
  | nil =>
    intro n line c h
    simp [wrapLoop] at h
  | cons wd ws ih =>
    intro n line c h
    by_cases hA : maxWidth < w (if line = [] then wd else line ++ ' ' :: wd) ∧ 0 < n
    · by_cases hB : maxLines - 1 ≤ c + 1
      · refine ⟨truncLoop w maxWidth (joinWords (wd :: ws)), ?_, ?_⟩
        · simp [wrapLoop, hA, hB]
        · intro hell
          rcases truncLoop_post w maxWidth (joinWords (wd :: ws)) with h0 | h0
          · rw [h0]
            simpa using hell
          · exact le_of_not_lt h0
      · have h2 : (wrapLoop w maxWidth maxLines ws (n + 1) wd (c + 1)).2 = true := by
          simpa [wrapLoop, hA, hB] using h
        obtain ⟨pre, hlast, hwid⟩ := ih (n + 1) wd (c + 1) h2
        refine ⟨pre, ?_, hwid⟩
        have hne : (wrapLoop w maxWidth maxLines ws (n + 1) wd (c + 1)).1.map Prod.fst ≠ [] := by
          simpa using wrapLoop_ne_nil w maxWidth maxLines ws (n + 1) wd (c + 1)
        simp only [wrapLoop, if_pos hA, if_neg hB, List.map_cons]
        rw [getLast?_cons_ne _ hne]
        exact hlast
    · have h2 : (wrapLoop w maxWidth maxLines ws (n + 1)
          (if line = [] then wd else line ++ ' ' :: wd) c).2 = true := by
        simpa [wrapLoop, hA] using h
      obtain ⟨pre, hlast, hwid⟩ := ih (n + 1) (if line = [] then wd else line ++ ' ' :: wd) c h2
      refine ⟨pre, ?_, hwid⟩
      simpa [wrapLoop, hA] using hlast

/-- C1 (amended): for maxLines ≥ 2, wrapText draws at most maxLines lines; when
the truncation branch runs, the last drawn line ends with the ellipsis, and its
rendered width is ≤ maxWidth provided the ellipsis alone fits within maxWidth.
(As stated the claim fails: with maxLines = 1 the code draws 2 lines, and when
renderedWidth("…") > maxWidth the truncated line overflows; see
`wrapText_c1_counterexample`.) -/
theorem wrapText_line_budget (w : List Char → ℚ) (text : List Char) (maxWidth : ℚ)
    (maxLines : ℕ) (hml : 2 ≤ maxLines) :
    (wrapLines w text maxWidth maxLines).length ≤ maxLines ∧
    (wrapTruncated w text maxWidth maxLines = true →
      ∃ pre, (wrapLines w text maxWidth maxLines).getLast? = some (pre ++ ell) ∧
        (w ell ≤ maxWidth → w (pre ++ ell) ≤ maxWidth)) := by
  constructor
  · have := wrapLoop_len_le w maxWidth maxLines (splitWords text) 0 [] 0 (by omega)
    simpa [wrapLines, wrapTextOps] using this
  · intro ht
    exact wrapLoop_trunc_last w maxWidth maxLines (splitWords text) 0 [] 0 ht

/-- Witness for `wrapText_line_budget` at a concrete input. -/
theorem wrapText_line_budget_witness :
    2 ≤ 2 ∧ (wrapLines lenW ("aaaa bbbb cccc".data) 4 2).length ≤ 2 :=
  ⟨by decide, (wrapText_line_budget lenW ("aaaa bbbb cccc".data) 4 2 (by decide)).1⟩

/-- C1 counterexample: with maxWidth = 4 > 0 and maxLines = 1 the engine draws
2 > maxLines lines; and with the 2-units-per-character oracle, maxWidth = 1 > 0
and maxLines = 2, truncation occurs and the last drawn line is the bare
ellipsis of rendered width 2 > maxWidth. -/
theorem wrapText_c1_counterexample :
    (wrapLines lenW ("aaaaa bbbbb".data) 4 1).length = 2 ∧
    wrapTruncated dblW ("aa bb".data) 1 2 = true ∧
    (wrapLines dblW ("aa bb".data) 1 2).getLast? = some ell ∧
    (1 : ℚ) < dblW ell := by
  decide

lemma splitWords_ne_nil (t : List Char) : splitWords t ≠ [] := by
  induction t with
  | nil => simp [splitWords]
  | cons c cs ih =>
    by_cases hc : c = ' '
    · simp [splitWords, hc]
    · simp only [splitWords, if_neg hc]
      cases hs : splitWords cs with
      | nil => simp
      | cons wrd ws => simp

lemma wrapLoop_lines_ne (w : List Char → ℚ) (maxWidth : ℚ) (maxLines : ℕ) :
    ∀ ws n line c, (∀ x ∈ ws, x ≠ []) → line ≠ [] →
      ∀ l ∈ (wrapLoop w maxWidth maxLines ws n line c).1.map Prod.fst, l ≠ [] := by
  intro ws
  induction ws with
  | nil =>
    intro n line c _ hline l hl
    simp [wrapLoop] at hl
    simpa [hl] using hline
  | cons wd ws ih =>
    intro n line c hws hline l hl
    have hwd : wd ≠ [] := hws wd (by simp)
    have hws' : ∀ x ∈ ws, x ≠ [] := fun x hx => hws x (by simp [hx])
    by_cases hA : maxWidth < w (if line = [] then wd else line ++ ' ' :: wd) ∧ 0 < n
    · by_cases hB : maxLines - 1 ≤ c + 1
      · simp only [wrapLoop, if_pos hA, if_pos hB, List.map_cons, List.map_nil,
          List.mem_cons, List.not_mem_nil, or_false] at hl
        rcases hl with hl | hl
        · simpa [hl] using hline
        · rw [hl]
          simp [ell]
      · simp only [wrapLoop, if_pos hA, if_neg hB, List.map_cons, List.mem_cons] at hl
        rcases hl with hl | hl
        · simpa [hl] using hline
        · exact ih (n + 1) wd (c + 1) hws' hwd l hl
    · have htest : (if line = [] then wd else line ++ ' ' :: wd) ≠ [] := by
        by_cases h0 : line = []
        · simpa [h0] using hwd
        · simp [h0]
      have hl' : l ∈ (wrapLoop w maxWidth maxLines ws (n + 1)
          (if line = [] then wd else line ++ ' ' :: wd) c).1.map Prod.fst := by
        simpa [wrapLoop, hA] using hl
      exact ih (n + 1) (if line = [] then wd else line ++ ' ' :: wd) c hws' htest l hl'

/-- C7 (amended): the commit guard in the code is "candidate overflows AND the
token index n is positive", not "AND the current line is non-empty"; when the
split produces an empty token (consecutive or leading spaces) an empty line can
be committed (see `wrapText_empty_commit_counterexample`).  When every token is
non-empty, every drawn line is non-empty; and a single word—however wide—is
drawn whole on its own line, never broken. -/
theorem wrapText_commit_policy :
    (∀ (w : List Char → ℚ) text maxWidth maxLines, (∀ wd ∈ splitWords text, wd ≠ []) →
      ∀ l ∈ wrapLines w text maxWidth maxLines, l ≠ []) ∧
    (∀ (w : List Char → ℚ) text wd maxWidth maxLines, splitWords text = [wd] →
      wrapLines w text maxWidth maxLines = [wd]) := by
  constructor
  · intro w text maxWidth maxLines hne l hl
    rcases hsw : splitWords text with _ | ⟨wd0, ws⟩
    · exact absurd hsw (splitWords_ne_nil text)
    · have hwd0 : wd0 ≠ [] := by
        apply hne
        rw [hsw]
        simp
      have hws : ∀ x ∈ ws, x ≠ [] := by
        intro x hx
        apply hne
        rw [hsw]
        simp [hx]
      have hstep : wrapLoop w maxWidth maxLines (wd0 :: ws) 0 [] 0 =
          wrapLoop w maxWidth maxLines ws 1 wd0 0 := by
        simp [wrapLoop]
      have hl' : l ∈ (wrapLoop w maxWidth maxLines ws 1 wd0 0).1.map Prod.fst := by
        rw [wrapLines, wrapTextOps, hsw, hstep] at hl
        exact hl
      exact wrapLoop_lines_ne w maxWidth maxLines ws 1 wd0 0 hws hwd0 l hl'
  · intro w text wd maxWidth maxLines hsw
    rw [wrapLines, wrapTextOps, hsw]
    simp [wrapLoop]

/-- Witness for `wrapText_commit_policy` at a concrete input. -/
theorem wrapText_commit_policy_witness :
    splitWords ("hello".data) = [("hello".data)] ∧
    wrapLines lenW ("hello".data) 3 2 = [("hello".data)] :=
  ⟨by decide, wrapText_commit_policy.2 lenW ("hello".data) ("hello".data) 3 2 (by decide)⟩

/-- C7 counterexample: the input " bbbbb" (leading space) with maxWidth = 4 > 0
and maxLines = 4 commits an empty line (the drawn lines are ["", "bbbbb"], and
the committed—non-final—lines contain the empty line). -/
theorem wrapText_empty_commit_counterexample :
    ([] : List Char) ∈ (wrapLines lenW (" bbbbb".data) 4 4).dropLast ∧ (0 : ℚ) < 4 := by
  decide

lemma wrapLoop_len_words (w : List Char → ℚ) (maxWidth : ℚ) (maxLines : ℕ) :
    ∀ ws n line c, (wrapLoop w maxWidth maxLines ws n line c).1.length ≤ ws.length + 1 := by
  intro ws
  induction ws with
  | nil =>
    intro n line c
    simp [wrapLoop]
  | cons wd ws ih =>
    intro n line c
    by_cases hA : maxWidth < w (if line = [] then wd else line ++ ' ' :: wd) ∧ 0 < n
    · by_cases hB : maxLines - 1 ≤ c + 1
      · simp only [wrapLoop, if_pos hA, if_pos hB, List.length_cons, List.length_nil]
        omega
      · have := ih (n + 1) wd (c + 1)
        simp only [wrapLoop, if_pos hA, if_neg hB, List.length_cons]
        omega
    · have := ih (n + 1) (if line = [] then wd else line ++ ' ' :: wd) c
      simp only [wrapLoop, if_neg hA, List.length_cons]
      omega

/-- C10: wrapText terminates on every input.  The truncation loop is
insensitive to any fuel beyond the length of the remaining string (it stops
within `rest.length` iterations), it always reaches the loop's exit condition
(width fits, or the remaining string is empty—so it stops even when the
ellipsis alone is wider than maxWidth), and the outer loop draws at most one
line per token plus the final line. -/
theorem wrapText_loop_bounds :
    (∀ (w : List Char → ℚ) maxWidth fuel (rest : List Char), rest.length ≤ fuel →
      truncGo w maxWidth fuel rest = truncLoop w maxWidth rest) ∧
    (∀ (w : List Char → ℚ) maxWidth rest, truncLoop w maxWidth rest = [] ∨
      ¬ maxWidth < w (truncLoop w maxWidth rest ++ ell)) ∧
    (∀ (w : List Char → ℚ) text maxWidth maxLines,
      (wrapLines w text maxWidth maxLines).length ≤ (splitWords text).length + 1) := by
  refine ⟨?_, truncLoop_post, ?_⟩
  · intro w maxWidth fuel rest h
    exact truncGo_fuel w maxWidth fuel rest h
  · intro w text maxWidth maxLines
    have := wrapLoop_len_words w maxWidth maxLines (splitWords text) 0 [] 0
    simpa [wrapLines, wrapTextOps] using this

/-- Witness for `wrapText_loop_bounds` at a concrete input. -/
theorem wrapText_loop_bounds_witness :
    ("abc".data).length ≤ 5 ∧ truncGo lenW 4 5 ("abc".data) = truncLoop lenW 4 ("abc".data) :=
  ⟨by decide, wrapText_loop_bounds.1 lenW 4 5 ("abc".data) (by decide)⟩

/-! ## Frame compositor: drawFrame (video-generator.tsx lines 25-104) -/

/-- Zoom denominator `Math.max(total - 1, 1)` (JS subtraction on a
non-negative total agrees with truncated ℕ subtraction after the max). -/
def zoomDen (total : ℕ) : ℕ := max (total - 1) 1

/-- The per-frame Ken Burns progress `t / Math.max(total - 1, 1)`. -/
def kenBurnsProgress (t total : ℕ) : ℚ := (t : ℚ) / (zoomDen total : ℚ)

/-- The per-frame zoom `scale = 1.0 + progress * 0.1`. -/
def zoomScale (t total : ℕ) : ℚ := 1 + kenBurnsProgress t total * (1 / 10)

/-- Image media handle: `naturalWidth`/`naturalHeight` of an HTMLImageElement. -/
structure ImgH where
  naturalWidth : ℕ
  naturalHeight : ℕ
deriving DecidableEq

/-- Video media handle: `videoWidth`/`videoHeight`/`readyState` of an
HTMLVideoElement. -/
structure VidH where
  videoWidth : ℕ
  videoHeight : ℕ
  readyState : ℕ
deriving DecidableEq

/-- Canvas drawing primitives emitted by drawFrame, in call order. -/
inductive DrawOp where
  | fillRect (color : List Char) (x y width height : ℚ)
  | fillText (s : List Char) (x y : ℚ)
  | drawImage (x y width height : ℚ)
  | drawVideo (x y width height : ℚ)
deriving DecidableEq

/-- Media kind of a news item. -/
inductive MediaType where
  | image
  | video
deriving DecidableEq

/-- The media-band drawImage call of drawFrame (image branch,
`if (mediaType === "image" && image)` then `if (iw && ih)`; video branch,
`else if (mediaType === "video" && video && video.readyState >= 2)` then
`if (vw && vh)`).  Nonzero-ness of the JS truthiness tests `iw && ih` /
`vw && vh` is `0 < _` on ℕ. -/
def mediaOps (width height : ℚ) (mt : MediaType) (t total : ℕ)
    (img : Option ImgH) (vid : Option VidH) : List DrawOp :=
  let mediaY : ℚ := 100
  let mediaH : ℚ := height - 100 - 120
  let mediaW : ℚ := width
  match mt with
  | MediaType.image =>
    match img with
    | none => []
    | some im =>
      if 0 < im.naturalWidth ∧ 0 < im.naturalHeight then
        let scale := zoomScale t total
        let mediaAspect := mediaW / mediaH
        let imgAspect := (im.naturalWidth : ℚ) / (im.naturalHeight : ℚ)
        let drawW := if mediaAspect < imgAspect then mediaH * scale * imgAspect
          else mediaW * scale
        let drawH := if mediaAspect < imgAspect then mediaH * scale
          else mediaW * scale / imgAspect
        [DrawOp.drawImage ((mediaW - drawW) / 2) (mediaY + (mediaH - drawH) / 2) drawW drawH]
      else []
  | MediaType.video =>
    match vid with
    | none => []
    | some v =>
      if 2 ≤ v.readyState then
        if 0 < v.videoWidth ∧ 0 < v.videoHeight then
          let mediaAspect := mediaW / mediaH
          let vidAspect := (v.videoWidth : ℚ) / (v.videoHeight : ℚ)
          let drawW := if mediaAspect < vidAspect then mediaH * vidAspect else mediaW
          let drawH := if mediaAspect < vidAspect then mediaH else mediaW / vidAspect
          [DrawOp.drawVideo ((mediaW - drawW) / 2) (mediaY + (mediaH - drawH) / 2) drawW drawH]
        else []
      else []

/-- drawFrame(ctx, t, total, image?, video?): the full ordered list of canvas
calls of one frame — background fill, header fill and label, black media-band
fill, the media draw (if any), then the footer title through wrapText with
padding 36, line height 44, max 2 lines. -/
def drawFrame (w : List Char → ℚ) (width height : ℚ) (mt : MediaType) (title : List Char)
    (t total : ℕ) (img : Option ImgH) (vid : Option VidH) : List DrawOp :=
  [DrawOp.fillRect ("#ffffff".data) 0 0 width height,
   DrawOp.fillRect ("#e11d48".data) 0 0 width 100,
   DrawOp.fillText ("Breaking News".data) 36 (100 / 2),
   DrawOp.fillRect ("#000000".data) 0 100 width (height - 100 - 120)] ++
  mediaOps width height mt t total img vid ++
  (wrapTextOps w title (width - 36 * 2) 2).1.map
    (fun p => DrawOp.fillText p.1 36 ((height - 120 + 24) + p.2 * 44))

/-- C2 (amended): zoomScale 0 is exactly 1 for every totalFrames; for
totalFrames ≥ 2 the scale at the last frame index is exactly 11/10; and the
scale is monotone non-decreasing in the frame index for every totalFrames.
(As stated the claim fails at totalFrames = 1, where the only frame — index
totalFrames-1 = 0 — has scale 1, not 1.1; see `zoomScale_counterexample`.) -/
theorem zoomScale_profile :
    (∀ total : ℕ, zoomScale 0 total = 1) ∧
    (∀ total : ℕ, 2 ≤ total → zoomScale (total - 1) total = 11 / 10) ∧
    (∀ t t' total : ℕ, t ≤ t' → zoomScale t total ≤ zoomScale t' total) := by
  refine ⟨?_, ?_, ?_⟩
  · intro total
    simp [zoomScale, kenBurnsProgress]
  · intro total h2
    have hden : zoomDen total = total - 1 := by
      unfold zoomDen
      omega
    have hne : ((total - 1 : ℕ) : ℚ) ≠ 0 := by
      have h1 : 0 < total - 1 := by omega
      exact_mod_cast h1.ne'
    rw [zoomScale, kenBurnsProgress, hden, div_self hne]
    norm_num
  · intro t t' total hle
    have hpos : (0 : ℚ) < (zoomDen total : ℚ) := by
      have : 1 ≤ zoomDen total := le_max_right _ _
      exact_mod_cast this
    have hc : (t : ℚ) ≤ (t' : ℚ) := by exact_mod_cast hle
    have hdiv : (t : ℚ) / (zoomDen total : ℚ) ≤ (t' : ℚ) / (zoomDen total : ℚ) := by
      gcongr
    unfold zoomScale kenBurnsProgress
    linarith [hdiv]

/-- Witness for `zoomScale_profile` at a concrete input. -/
theorem zoomScale_profile_witness :
    2 ≤ 3 ∧ zoomScale (3 - 1) 3 = 11 / 10 :=
  ⟨by decide, zoomScale_profile.2.1 3 (by decide)⟩

/-- C2 counterexample: with totalFrames = 1 the scale at the final frame
index totalFrames - 1 = 0 is 1, not 11/10. -/
theorem zoomScale_counterexample : zoomScale (1 - 1) 1 = 1 ∧ (1 : ℚ) ≠ 11 / 10 := by
  constructor
  · simp [zoomScale, kenBurnsProgress]
  · norm_num

/-- Test for a drawImage call. -/
def isImgOp : DrawOp → Bool
  | DrawOp.drawImage _ _ _ _ => true
  | _ => false

/-- Test for a drawVideo call. -/
def isVidOp : DrawOp → Bool
  | DrawOp.drawVideo _ _ _ _ => true
  | _ => false

/-- Number of drawImage calls in a drawn frame. -/
def imgOpCount (ops : List DrawOp) : ℕ := ops.countP isImgOp

/-- Number of drawVideo calls in a drawn frame. -/
def vidOpCount (ops : List DrawOp) : ℕ := ops.countP isVidOp

lemma countP_map_eq_zero {α : Type} (p : DrawOp → Bool) (g : α → DrawOp) (l : List α)
    (h : ∀ a, p (g a) = false) : (l.map g).countP p = 0 := by
  induction l with
  | nil => simp
  | cons a l ih => simp [List.countP_cons, h, ih]

/-- C9: drawFrame's guards — the zoom denominator max(total-1, 1) is always at
least 1; a drawImage call occurs exactly when the mode is image, a handle is
present and both natural dimensions are nonzero; a drawVideo call occurs
exactly when the mode is video, a handle is present, readyState ≥ 2 and both
video dimensions are nonzero; and in every frame the media band is first
filled black (so when the dimensions are zero nothing else is drawn there and
the band stays black).  The aspect-ratio quotients are therefore only reached
under nonzero-dimension guards. -/
theorem drawFrame_guards (w : List Char → ℚ) (width height : ℚ) (mt : MediaType)
    (title : List Char) (t total : ℕ) (img : Option ImgH) (vid : Option VidH) :
    1 ≤ zoomDen total ∧
    imgOpCount (drawFrame w width height mt title t total img vid) =
      (match mt, img with
       | MediaType.image, some im =>
         if 0 < im.naturalWidth ∧ 0 < im.naturalHeight then 1 else 0
       | _, _ => 0) ∧
    vidOpCount (drawFrame w width height mt title t total img vid) =
      (match mt, vid with
       | MediaType.video, some v =>
         if 2 ≤ v.readyState ∧ (0 < v.videoWidth ∧ 0 < v.videoHeight) then 1 else 0
       | _, _ => 0) ∧
    DrawOp.fillRect ("#000000".data) 0 100 width (height - 100 - 120) ∈
      drawFrame w width height mt title t total img vid := by
  have hTitleI : ((wrapTextOps w title (width - 36 * 2) 2).1.map
      (fun p => DrawOp.fillText p.1 36 ((height - 120 + 24) + p.2 * 44))).countP isImgOp = 0 :=
    countP_map_eq_zero isImgOp _ _ (fun a => rfl)
  have hTitleV : ((wrapTextOps w title (width - 36 * 2) 2).1.map
      (fun p => DrawOp.fillText p.1 36 ((height - 120 + 24) + p.2 * 44))).countP isVidOp = 0 :=
    countP_map_eq_zero isVidOp _ _ (fun a => rfl)
  refine ⟨le_max_right _ _, ?_, ?_, ?_⟩
  · rw [drawFrame, imgOpCount, List.countP_append, List.countP_append, hTitleI]
    cases mt with
    | image =>
      cases img with
      | none => simp [mediaOps, List.countP_cons, isImgOp]
      | some im =>
        by_cases hg : 0 < im.naturalWidth ∧ 0 < im.naturalHeight
        · simp [mediaOps, hg, List.countP_cons, isImgOp]
        · simp [mediaOps, hg, List.countP_cons, isImgOp]
    | video =>
      cases vid with
      | none => simp [mediaOps, List.countP_cons, isImgOp]
      | some v =>
        by_cases h2 : 2 ≤ v.readyState
        · by_cases hg : 0 < v.videoWidth ∧ 0 < v.videoHeight
          · simp [mediaOps, h2, hg, List.countP_cons, isImgOp]
          · simp [mediaOps, h2, hg, List.countP_cons, isImgOp]
        · simp [mediaOps, h2, List.countP_cons, isImgOp]
  · rw [drawFrame, vidOpCount, List.countP_append, List.countP_append, hTitleV]
    cases mt with
    | image =>
      cases img with
      | none => simp [mediaOps, List.countP_cons, isVidOp]
      | some im =>
        by_cases hg : 0 < im.naturalWidth ∧ 0 < im.naturalHeight
        · simp [mediaOps, hg, List.countP_cons, isVidOp]
        · simp [mediaOps, hg, List.countP_cons, isVidOp]
    | video =>
      cases vid with
      | none => simp [mediaOps, List.countP_cons, isVidOp]
      | some v =>
        by_cases h2 : 2 ≤ v.readyState
        · by_cases hg : 0 < v.videoWidth ∧ 0 < v.videoHeight
          · simp [mediaOps, h2, hg, List.countP_cons, isVidOp]
          · simp [mediaOps, h2, hg, List.countP_cons, isVidOp]
        · simp [mediaOps, h2, List.countP_cons, isVidOp]
  · rw [drawFrame]
    simp

/-! ## Feed parsing: parseGviz / parseCsv (app/api/news/route.ts) -/

/-- Normalized news item produced by both feed routes. -/
structure NewsItem where
  id : List Char
  title : List Char
  mediaUrl : List Char
  mediaType : MediaType
deriving DecidableEq

/-- JS `s.toLowerCase()` (ASCII model). -/
def lowerStr (l : List Char) : List Char := l.map Char.toLower

/-- JS `s.trim()`: strip leading and trailing whitespace. -/
def trimChars (l : List Char) : List Char :=
  ((l.dropWhile Char.isWhitespace).reverse.dropWhile Char.isWhitespace).reverse

/-- normalizeLabel(label): `(label || "").trim().toLowerCase()`. -/
def normalizeLabel (label : Option (List Char)) : List Char :=
  lowerStr (trimChars (label.getD []))

/-- JS `String(n)` for a natural number. -/
def natStr (n : ℕ) : List Char := (Nat.repr n).data

/-- The GViz column index record: `cols.forEach((c, i) => { const label =
normalizeLabel(c?.label); if (label) colIndex[label] = i })`; a later column
with the same label overwrites an earlier one, hence the last match. -/
def colIndex (cols : List (Option (List Char))) (key : List Char) : Option ℕ :=
  ((cols.enum.filter fun p => normalizeLabel p.2 ≠ [] ∧ normalizeLabel p.2 = key).map
    Prod.fst).getLast?

/-- GViz cell access `c[ix]?.v` for an optional index; a row is the list of
the cells' `v` values, with `none` for a missing cell or a null value. -/
def cellAt (row : List (Option (List Char))) : Option ℕ → Option (List Char)
  | none => none
  | some i => (row.get? i).join

/-- The raw GViz mediaType cell:
`c[colIndex["mediatype"]]?.v ?? c[colIndex["media_type"]]?.v ?? ""`. -/
def gvizMediaTypeRaw (cols : List (Option (List Char))) (row : List (Option (List Char))) :
    List Char :=
  ((cellAt row (colIndex cols ("mediatype".data))) <|>
    (cellAt row (colIndex cols ("media_type".data)))).getD []

/-- One row of parseGviz's `rows.map((r, idx) => ...)`: extract title,
mediaUrl and mediaType, drop the row when both title and mediaUrl are
empty (the later `.filter(Boolean)`). -/
def parseGvizRow (cols : List (Option (List Char))) (idx : ℕ)
    (row : List (Option (List Char))) : Option NewsItem :=
  let title := (cellAt row (colIndex cols ("title".data))).getD []
  let mediaUrl := ((cellAt row (colIndex cols ("mediaurl".data))) <|>
    (cellAt row (colIndex cols ("media_url".data)))).getD []
  let mediaType := if lowerStr (gvizMediaTypeRaw cols row) = "video".data
    then MediaType.video else MediaType.image
  if title = [] ∧ mediaUrl = [] then none
  else some ⟨natStr (idx + 1), trimChars title, trimChars mediaUrl, mediaType⟩

/-- parseGviz on the decoded table: JSON extraction is outside the model; the
input is the table's column labels and the rows' cell values. -/
def parseGviz (cols : List (Option (List Char))) (rows : List (List (Option (List Char)))) :
    List NewsItem :=
  rows.enum.filterMap fun p => parseGvizRow cols p.1 p.2

/-- The character loop of splitCsvLine: `current` accumulates the field,
`inQ` is the inQuotes flag; `""` inside quotes emits a literal quote and
skips a character, a bare quote toggles the flag, an unquoted comma ends
the field. -/
def splitCsvGo : Bool → List Char → List Char → List (List Char)
  | true, current, '"' :: '"' :: rest => splitCsvGo true (current ++ ['"']) rest
  | inQ, current, '"' :: rest => splitCsvGo (!inQ) current rest
  | false, current, ',' :: rest => current :: splitCsvGo false [] rest
  | inQ, current, c :: rest => splitCsvGo inQ (current ++ [c]) rest
  | _, current, [] => [current]

/-- splitCsvLine(line). -/
def splitCsvLine (line : List Char) : List (List Char) := splitCsvGo false [] line

/-- The CSV header index record (same overwrite semantics as the GViz one):
`header.forEach((h, i) => { const key = normalizeLabel(h); if (key) indices[key] = i })`. -/
def csvIndex (header : List (List Char)) (key : List Char) : Option ℕ :=
  ((header.enum.filter fun p =>
    normalizeLabel (some p.2) ≠ [] ∧ normalizeLabel (some p.2) = key).map Prod.fst).getLast?

/-- The row accessor `get(name) = indices[name] != null ? cols[ix] || "" : ""`. -/
def csvGet (header : List (List Char)) (cols : List (List Char)) (name : List Char) :
    List Char :=
  match csvIndex header name with
  | some ix => (cols.get? ix).getD []
  | none => []

/-- The raw CSV mediaType cell: `get("mediatype") || get("media_type")`. -/
def csvMediaTypeRaw (header : List (List Char)) (line : List Char) : List Char :=
  let cols := splitCsvLine line
  if csvGet header cols ("mediatype".data) ≠ [] then csvGet header cols ("mediatype".data)
  else csvGet header cols ("media_type".data)

/-- One data row of parseCsv (row number `i` is the 1-based line index used
for the id); rows with empty title and mediaUrl are skipped. -/
def parseCsvRow (header : List (List Char)) (i : ℕ) (line : List Char) : Option NewsItem :=
  let cols := splitCsvLine line
  let title := csvGet header cols ("title".data)
  let mediaUrl := if csvGet header cols ("mediaurl".data) ≠ []
    then csvGet header cols ("mediaurl".data) else csvGet header cols ("media_url".data)
  let mediaType := if lowerStr (csvMediaTypeRaw header line) = "video".data
    then MediaType.video else MediaType.image
  if title = [] ∧ mediaUrl = [] then none
  else some ⟨natStr i, trimChars title, trimChars mediaUrl, mediaType⟩

/-- Split a text on a given character (JS `text.split(c)` without regex). -/
def splitOnChar (sep : Char) : List Char → List (List Char)
  | [] => [[]]
  | c :: cs =>
    if c = sep then [] :: splitOnChar sep cs
    else
      match splitOnChar sep cs with
      | [] => [[c]]
      | seg :: segs => (c :: seg) :: segs

/-- Strip one trailing carriage return from a line (the `\r?` of the
`/\r?\n/` separator). -/
def stripCr (l : List Char) : List Char :=
  if l.getLast? = some '\r' then l.dropLast else l

/-- Strip the optional carriage return from every segment that was followed
by a newline, i.e. every segment but the last. -/
def stripCrAllButLast : List (List Char) → List (List Char)
  | [] => []
  | [s] => [s]
  | s :: rest => stripCr s :: stripCrAllButLast rest

/-- parseCsv(text): split into lines on `/\r?\n/`, drop empty lines
(`.filter(Boolean)`), parse the header, then each data row in order. -/
def parseCsv (text : List Char) : List NewsItem :=
  match (stripCrAllButLast (splitOnChar '\n' text)).filter (fun l => l ≠ []) with
  | [] => []
  | headerLine :: rest =>
    let header := splitCsvLine headerLine
    rest.enum.filterMap fun p => parseCsvRow header (p.1 + 1) p.2

/-- C8: in both parsers, a produced item's mediaType is video exactly when
the raw mediaType cell — looked up under the case-insensitively normalized
column labels "mediatype"/"media_type" — lowercases to "video", and image in
every other case (absent column, absent value, or any other content). -/
theorem mediaType_normalization :
    (∀ cols idx row item, parseGvizRow cols idx row = some item →
      item.mediaType = (if lowerStr (gvizMediaTypeRaw cols row) = "video".data
        then MediaType.video else MediaType.image)) ∧
    (∀ header i line item, parseCsvRow header i line = some item →
      item.mediaType = (if lowerStr (csvMediaTypeRaw header line) = "video".data
        then MediaType.video else MediaType.image)) := by
  constructor
  · intro cols idx row item h
    rw [parseGvizRow] at h
    by_cases hf : ((cellAt row (colIndex cols ("title".data))).getD [] = [] ∧
        ((cellAt row (colIndex cols ("mediaurl".data))) <|>
          (cellAt row (colIndex cols ("media_url".data)))).getD [] = [])
    · simp only [if_pos hf] at h
      exact absurd h (by simp)
    · simp only [if_neg hf, Option.some.injEq] at h
      rw [← h]
  · intro header i line item h
    rw [parseCsvRow] at h
    by_cases hf : (csvGet header (splitCsvLine line) ("title".data) = [] ∧
        (if csvGet header (splitCsvLine line) ("mediaurl".data) ≠ []
          then csvGet header (splitCsvLine line) ("mediaurl".data)
          else csvGet header (splitCsvLine line) ("media_url".data)) = [])
    · simp only [if_pos hf] at h
      exact absurd h (by simp)
    · simp only [if_neg hf, Option.some.injEq] at h
      rw [← h]

/-- Witness for `mediaType_normalization` at a concrete table: a row whose
mediaType cell is "VIDEO" under a "MediaType " column label normalizes to the
video media type. -/
theorem mediaType_normalization_witness :
    parseGvizRow [some ("MediaType ".data), some ("Title".data)] 0
        [some ("VIDEO".data), some ("hello".data)] =
      some ⟨("1".data), ("hello".data), [], MediaType.video⟩ ∧
    (MediaType.video =
      if lowerStr (gvizMediaTypeRaw [some ("MediaType ".data), some ("Title".data)]
          [some ("VIDEO".data), some ("hello".data)]) = "video".data
        then MediaType.video else MediaType.image) :=
  ⟨by decide,
    mediaType_normalization.1 [some ("MediaType ".data), some ("Title".data)] 0
      [some ("VIDEO".data), some ("hello".data)]
      ⟨("1".data), ("hello".data), [], MediaType.video⟩ (by decide)⟩

/-! ## Capture/encode pipeline: handleGenerate (video-generator.tsx lines 106-166) -/

/-- UI generation state (the GenState union of the source; the done state's
object-URL handle is environment-generated and represented by the size). -/
inductive GenState where
  | idle
  | recording (progress : ℚ)
  | done (size : ℕ)
  | error (message : List Char)
deriving DecidableEq

/-- Observable events of one handleGenerate run: setState transitions and
drawFrame invocations (with frame index and total). -/
inductive GenEvent where
  | setState (s : GenState)
  | draw (f total : ℕ)
deriving DecidableEq

/-- Abstract browser environment of a run: canvas-context availability, image
load success, MediaRecorder.isTypeSupported, whether the MediaRecorder
constructor throws (and its message), and the final blob size. -/
structure GenEnv where
  ctxOk : Bool
  imageLoadOk : Bool
  supported : List Char → Bool
  recorderThrows : Bool
  recorderMsg : List Char
  blobSize : ℕ

/-- The preference-ordered mime candidates. -/
def mimeCandidates : List (List Char) :=
  [("video/webm;codecs=vp9".data), ("video/webm;codecs=vp8".data), ("video/webm".data)]

/-- `mimeCandidates.find((m) => MediaRecorder.isTypeSupported(m)) || ""`. -/
def selectedMime (env : GenEnv) : List Char :=
  (mimeCandidates.find? env.supported).getD []

/-- `totalFrames = Math.max(1, Math.floor(durationSec * fps))`, fps = 30. -/
def totalFrames (d : ℚ) : ℕ := (max 1 ⌊d * 30⌋).toNat

/-- The progress-update stride `Math.max(1, Math.floor(totalFrames / 50))`. -/
def updateStep (n : ℕ) : ℕ := max 1 (n / 50)

/-- Error message of waitImage's reject. -/
def imgErrMsg : List Char := "Failed to load image for canvas.".data

/-- Error message thrown when getContext("2d") returns null. -/
def ctxErrMsg : List Char := "Canvas 2D context not available.".data

/-- One iteration of the frame loop: the drawFrame invocation for index `f`,
followed by the progress setState when `(f + 1) % m = 0`, with progress
`(f + 1) / totalFrames`. -/
def frameStep (n m : ℕ) (f : ℕ) : List GenEvent :=
  GenEvent.draw f n ::
    (if (f + 1) % m = 0 then
      [GenEvent.setState (GenState.recording (((f + 1 : ℕ) : ℚ) / (n : ℚ)))]
    else [])

/-- The frame loop `for (let f = 0; f < totalFrames; f++)`. -/
def frameLoopEvents (n m : ℕ) : List GenEvent :=
  (List.range n).flatMap (frameStep n m)

/-- handleGenerate: the ordered observable events of one run.  It starts with
setState(recording 0); then either fails at the context check, the image
load (image mode only; video preparation has no failure path), or the
MediaRecorder construction — each failure is caught by the surrounding
try/catch and becomes a single error setState — or runs the frame loop and
ends with setState(done size). -/
def genTrace (env : GenEnv) (mt : MediaType) (durationSec : ℚ) : List GenEvent :=
  GenEvent.setState (GenState.recording 0) ::
    (if env.ctxOk = false then [GenEvent.setState (GenState.error ctxErrMsg)]
     else if mt = MediaType.image ∧ env.imageLoadOk = false then
       [GenEvent.setState (GenState.error imgErrMsg)]
     else if env.recorderThrows = true then
       [GenEvent.setState (GenState.error env.recorderMsg)]
     else
       frameLoopEvents (totalFrames durationSec) (updateStep (totalFrames durationSec)) ++
         [GenEvent.setState (GenState.done env.blobSize)])

/-- Terminal transitions (Done or Error). -/
def isTerminal : GenEvent → Bool
  | GenEvent.setState (GenState.done _) => true
  | GenEvent.setState (GenState.error _) => true
  | _ => false

/-- Frame indices of the draw calls of a trace, in order. -/
def drawEvents (tr : List GenEvent) : List ℕ :=
  tr.filterMap fun e => match e with
    | GenEvent.draw f _ => some f
    | _ => none

/-- Progress values of the Recording transitions of a trace, in order. -/
def progressValues (tr : List GenEvent) : List ℚ :=
  tr.filterMap fun e => match e with
    | GenEvent.setState (GenState.recording p) => some p
    | _ => none

lemma totalFrames_pos (d : ℚ) : 0 < totalFrames d := by
  unfold totalFrames
  have h : (1 : ℤ) ≤ max 1 ⌊d * 30⌋ := le_max_left _ _
  omega

lemma genTrace_success (env : GenEnv) (mt : MediaType) (d : ℚ)
    (h1 : env.ctxOk = true) (h2 : mt = MediaType.image → env.imageLoadOk = true)
    (h3 : env.recorderThrows = false) :
    genTrace env mt d = GenEvent.setState (GenState.recording 0) ::
      (frameLoopEvents (totalFrames d) (updateStep (totalFrames d)) ++
        [GenEvent.setState (GenState.done env.blobSize)]) := by
  cases mt with
  | image =>
    have hload := h2 rfl
    simp [genTrace, h1, h3, hload]
  | video =>
    simp [genTrace, h1, h3]

lemma drawEvents_append (l1 l2 : List GenEvent) :
    drawEvents (l1 ++ l2) = drawEvents l1 ++ drawEvents l2 := by
  simp [drawEvents]

lemma drawEvents_cons_state (s : GenState) (tr : List GenEvent) :
    drawEvents (GenEvent.setState s :: tr) = drawEvents tr := by
  simp [drawEvents]

lemma progressValues_append (l1 l2 : List GenEvent) :
    progressValues (l1 ++ l2) = progressValues l1 ++ progressValues l2 := by
  simp [progressValues]

lemma drawEvents_frameStep (n m f : ℕ) : drawEvents (frameStep n m f) = [f] := by
  by_cases hm : (f + 1) % m = 0
  · simp [frameStep, drawEvents, hm]
  · simp [frameStep, drawEvents, hm]

lemma countP_isTerminal_frameStep (n m f : ℕ) : (frameStep n m f).countP isTerminal = 0 := by
  by_cases hm : (f + 1) % m = 0
  · simp [frameStep, hm, List.countP_cons, isTerminal]
  · simp [frameStep, hm, List.countP_cons, isTerminal]

lemma progress_frameStep (n m f : ℕ) :
    progressValues (frameStep n m f) =
      if (f + 1) % m = 0 then [((f + 1 : ℕ) : ℚ) / (n : ℚ)] else [] := by
  by_cases hm : (f + 1) % m = 0
  · simp [frameStep, progressValues, hm]
  · simp [frameStep, progressValues, hm]

lemma drawEvents_flat (n m : ℕ) : ∀ l : List ℕ,
    drawEvents (l.flatMap (frameStep n m)) = l := by
  intro l
  induction l with
  | nil => simp [drawEvents]
  | cons a l ih =>
    rw [List.flatMap_cons, drawEvents_append, drawEvents_frameStep, ih]
    rfl

lemma frameLoop_no_terminal (n m : ℕ) : ∀ l : List ℕ,
    (l.flatMap (frameStep n m)).countP isTerminal = 0 := by
  intro l
  induction l with
  | nil => simp
  | cons a l ih =>
    rw [List.flatMap_cons, List.countP_append, countP_isTerminal_frameStep, ih]

lemma progress_flat (n m : ℕ) : ∀ l : List ℕ,
    progressValues (l.flatMap (frameStep n m)) =
      l.filterMap fun f => if (f + 1) % m = 0 then some (((f + 1 : ℕ) : ℚ) / (n : ℚ))
        else none := by
  intro l
  induction l with
  | nil => simp [progressValues]
  | cons a l ih =>
    by_cases hm : (a + 1) % m = 0
    · rw [List.flatMap_cons, progressValues_append, progress_frameStep, if_pos hm, ih]
      simp [hm]
    · rw [List.flatMap_cons, progressValues_append, progress_frameStep, if_neg hm, ih]
      simp [hm]

/-- C3: each successful run computes totalFrames = max(1, ⌊durationSec·30⌋)
(150 for durationSec = 5) and invokes the frame compositor exactly once per
frame index, in increasing order 0..totalFrames-1; the trace contains exactly
one terminal transition, and it is the final Done. -/
theorem generation_frame_loop (env : GenEnv) (mt : MediaType) (d : ℚ)
    (h1 : env.ctxOk = true) (h2 : mt = MediaType.image → env.imageLoadOk = true)
    (h3 : env.recorderThrows = false) :
    totalFrames 5 = 150 ∧
    drawEvents (genTrace env mt d) = List.range (totalFrames d) ∧
    (genTrace env mt d).countP isTerminal = 1 ∧
    (genTrace env mt d).getLast? = some (GenEvent.setState (GenState.done env.blobSize)) := by
  have hsucc := genTrace_success env mt d h1 h2 h3
  refine ⟨?_, ?_, ?_, ?_⟩
  · norm_num [totalFrames]
    rfl
  · rw [hsucc, drawEvents_cons_state, drawEvents_append, frameLoopEvents,
      drawEvents_flat, drawEvents_cons_state]
    simp [drawEvents]
  · rw [hsucc, List.countP_cons, List.countP_append, frameLoopEvents, frameLoop_no_terminal]
    simp [isTerminal, List.countP_cons]
  · rw [hsucc]
    have hassoc : GenEvent.setState (GenState.recording 0) ::
        (frameLoopEvents (totalFrames d) (updateStep (totalFrames d)) ++
          [GenEvent.setState (GenState.done env.blobSize)]) =
        (GenEvent.setState (GenState.recording 0) ::
          frameLoopEvents (totalFrames d) (updateStep (totalFrames d))) ++
          [GenEvent.setState (GenState.done env.blobSize)] := rfl
    rw [hassoc, List.getLast?_concat]

/-- Witness for `generation_frame_loop` at a concrete environment. -/
theorem generation_frame_loop_witness :
    drawEvents (genTrace ⟨true, true, fun _ => true, false, [], 7⟩ MediaType.image 5) =
      List.range (totalFrames 5) :=
  (generation_frame_loop ⟨true, true, fun _ => true, false, [], 7⟩ MediaType.image 5
    rfl (fun _ => rfl) rfl).2.1

lemma genTrace_ctx_fail (env : GenEnv) (mt : MediaType) (d : ℚ) (h : env.ctxOk = false) :
    genTrace env mt d = [GenEvent.setState (GenState.recording 0),
      GenEvent.setState (GenState.error ctxErrMsg)] := by
  simp [genTrace, h]

lemma genTrace_img_fail (env : GenEnv) (mt : MediaType) (d : ℚ) (h1 : env.ctxOk = true)
    (hmt : mt = MediaType.image) (h : env.imageLoadOk = false) :
    genTrace env mt d = [GenEvent.setState (GenState.recording 0),
      GenEvent.setState (GenState.error imgErrMsg)] := by
  simp [genTrace, h1, hmt, h]

lemma genTrace_recorder_fail (env : GenEnv) (mt : MediaType) (d : ℚ) (h1 : env.ctxOk = true)
    (h2 : mt = MediaType.image → env.imageLoadOk = true) (h3 : env.recorderThrows = true) :
    genTrace env mt d = [GenEvent.setState (GenState.recording 0),
      GenEvent.setState (GenState.error env.recorderMsg)] := by
  cases mt with
  | image =>
    have hload := h2 rfl
    simp [genTrace, h1, h3, hload]
  | video =>
    simp [genTrace, h1, h3]

/-- C5: whenever a modelled step of the run fails (context unavailable, image
load failure, or recorder-construction failure), the trace ends in a single
Error transition carrying the thrown message, no Done transition and no frame
draw ever occurs, and exactly one terminal transition is emitted (the run
stops at the first failure — there are no retries). -/
theorem generation_failure_no_output (env : GenEnv) (mt : MediaType) (d : ℚ)
    (h : env.ctxOk = false ∨ (mt = MediaType.image ∧ env.imageLoadOk = false) ∨
      env.recorderThrows = true) :
    (∃ msg, (genTrace env mt d).getLast? = some (GenEvent.setState (GenState.error msg))) ∧
    (∀ s, GenEvent.setState (GenState.done s) ∉ genTrace env mt d) ∧
    (∀ f n, GenEvent.draw f n ∉ genTrace env mt d) ∧
    (genTrace env mt d).countP isTerminal = 1 := by
  have htr : ∃ msg, genTrace env mt d = [GenEvent.setState (GenState.recording 0),
      GenEvent.setState (GenState.error msg)] := by
    by_cases hc : env.ctxOk = false
    · exact ⟨ctxErrMsg, genTrace_ctx_fail env mt d hc⟩
    · have hc' : env.ctxOk = true := by
        revert hc
        cases env.ctxOk <;> simp
      by_cases hi : mt = MediaType.image ∧ env.imageLoadOk = false
      · exact ⟨imgErrMsg, genTrace_img_fail env mt d hc' hi.1 hi.2⟩
      · have hr : env.recorderThrows = true := by
          rcases h with h | h | h
          · exact absurd h hc
          · exact absurd h hi
          · exact h
        have h2 : mt = MediaType.image → env.imageLoadOk = true := by
          intro hm
          cases hb : env.imageLoadOk with
          | false => exact absurd ⟨hm, hb⟩ hi
          | true => rfl
        exact ⟨env.recorderMsg, genTrace_recorder_fail env mt d hc' h2 hr⟩
  obtain ⟨msg, htr⟩ := htr
  rw [htr]
  refine ⟨⟨msg, by simp⟩, ?_, ?_, ?_⟩
  · intro s
    simp
  · intro f n
    simp
  · simp [List.countP_cons, isTerminal]

/-- Witness for `generation_failure_no_output` at a concrete environment. -/
theorem generation_failure_no_output_witness :
    GenEvent.setState (GenState.done 3) ∉
      genTrace ⟨false, true, fun _ => true, false, [], 0⟩ MediaType.image 5 :=
  (generation_failure_no_output ⟨false, true, fun _ => true, false, [], 0⟩ MediaType.image 5
    (Or.inl rfl)).2.1 3

/-- C4 (amended): the pipeline selects as encoding format the first entry of
the candidate list that the environment reports as supported; when no
candidate is supported it selects the empty format and constructs the
recorder with the environment default — it transitions to Error without
executing any frame-loop iteration only when the recorder construction (or an
earlier step) actually throws.  (As stated the claim fails: with no supported
candidate but a succeeding default construction the frame loop runs and the
run reaches Done; see `mime_fallback_counterexample`.) -/
theorem mime_selection_policy :
    (∀ env : GenEnv, selectedMime env =
      (if env.supported ("video/webm;codecs=vp9".data) = true then ("video/webm;codecs=vp9".data)
       else if env.supported ("video/webm;codecs=vp8".data) = true then
         ("video/webm;codecs=vp8".data)
       else if env.supported ("video/webm".data) = true then ("video/webm".data)
       else [])) ∧
    (∀ (env : GenEnv) (mt : MediaType) (d : ℚ), env.ctxOk = true →
      (mt = MediaType.image → env.imageLoadOk = true) → env.recorderThrows = true →
      (∀ f n, GenEvent.draw f n ∉ genTrace env mt d) ∧
      (genTrace env mt d).getLast? =
        some (GenEvent.setState (GenState.error env.recorderMsg))) := by
  constructor
  · intro env
    cases hs1 : env.supported ("video/webm;codecs=vp9".data) <;>
      cases hs2 : env.supported ("video/webm;codecs=vp8".data) <;>
        cases hs3 : env.supported ("video/webm".data) <;>
          simp [selectedMime, mimeCandidates, List.find?, hs1, hs2, hs3]
  · intro env mt d h1 h2 h3
    rw [genTrace_recorder_fail env mt d h1 h2 h3]
    constructor
    · intro f n
      simp
    · simp

/-- Witness for `mime_selection_policy` at a concrete environment. -/
theorem mime_selection_policy_witness :
    (genTrace ⟨true, true, fun _ => false, true, ("boom".data), 0⟩ MediaType.image 5).getLast? =
      some (GenEvent.setState (GenState.error
        ((⟨true, true, fun _ => false, true, ("boom".data), 0⟩ : GenEnv).recorderMsg))) :=
  (mime_selection_policy.2 ⟨true, true, fun _ => false, true, ("boom".data), 0⟩
    MediaType.image 5 rfl (fun _ => rfl) rfl).2

/-- Environment in which no mime candidate is supported but the recorder
constructor (called with the default options) succeeds. -/
def envNoMime : GenEnv := ⟨true, true, fun _ => false, false, [], 0⟩

/-- C4 counterexample: with no supported candidate and a succeeding default
recorder construction, the run executes the frame loop (frame 0 is drawn) and
terminates in Done, not Error. -/
theorem mime_fallback_counterexample :
    envNoMime.supported ("video/webm;codecs=vp9".data) = false ∧
    envNoMime.supported ("video/webm;codecs=vp8".data) = false ∧
    envNoMime.supported ("video/webm".data) = false ∧
    GenEvent.draw 0 (totalFrames 5) ∈ genTrace envNoMime MediaType.image 5 ∧
    (genTrace envNoMime MediaType.image 5).getLast? =
      some (GenEvent.setState (GenState.done 0)) := by
  refine ⟨rfl, rfl, rfl, ?_, ?_⟩
  · rw [genTrace_success envNoMime MediaType.image 5 rfl (fun _ => rfl) rfl]
    apply List.mem_cons_of_mem
    apply List.mem_append_left
    rw [frameLoopEvents]
    exact List.mem_flatMap.mpr ⟨0, List.mem_range.mpr (totalFrames_pos 5), by simp [frameStep]⟩
  · rw [genTrace_success envNoMime MediaType.image 5 rfl (fun _ => rfl) rfl]
    have hassoc : GenEvent.setState (GenState.recording 0) ::
        (frameLoopEvents (totalFrames 5) (updateStep (totalFrames 5)) ++
          [GenEvent.setState (GenState.done (envNoMime.blobSize))]) =
        (GenEvent.setState (GenState.recording 0) ::
          frameLoopEvents (totalFrames 5) (updateStep (totalFrames 5))) ++
          [GenEvent.setState (GenState.done (envNoMime.blobSize))] := rfl
    rw [hassoc, List.getLast?_concat]
    rfl

lemma progressValues_cons_rec (p : ℚ) (tr : List GenEvent) :
    progressValues (GenEvent.setState (GenState.recording p) :: tr) =
      p :: progressValues tr := by
  simp [progressValues]

lemma filterMap_ite (v : ℕ → ℚ) (q : ℕ → Prop) [DecidablePred q] (l : List ℕ) :
    l.filterMap (fun a => if q a then some (v a) else none) =
      (l.filter (fun a => decide (q a))).map v := by
  induction l with
  | nil => rfl
  | cons a l ih =>
    by_cases hq : q a
    · simp [hq, ih]
    · simp [hq, ih]

/-- Closed form of the progress values of a successful run: the initial 0,
then (f+1)/totalFrames at the update frames. -/
def progressList (n m : ℕ) : List ℚ :=
  0 :: ((List.range n).filter (fun f => decide ((f + 1) % m = 0))).map
    (fun f => ((f + 1 : ℕ) : ℚ) / (n : ℚ))

lemma progressValues_success (env : GenEnv) (mt : MediaType) (d : ℚ)
    (h1 : env.ctxOk = true) (h2 : mt = MediaType.image → env.imageLoadOk = true)
    (h3 : env.recorderThrows = false) :
    progressValues (genTrace env mt d) =
      progressList (totalFrames d) (updateStep (totalFrames d)) := by
  rw [genTrace_success env mt d h1 h2 h3, progressValues_cons_rec, progressValues_append,
    frameLoopEvents, progress_flat, filterMap_ite
      (fun f => ((f + 1 : ℕ) : ℚ) / ((totalFrames d : ℕ) : ℚ))
      (fun f => (f + 1) % updateStep (totalFrames d) = 0)]
  simp [progressValues, progressList]

lemma pairwise_le_getLast : ∀ {l : List ℚ}, l.Pairwise (· ≤ ·) → ∀ {x : ℚ}, x ∈ l →
    ∃ y, l.getLast? = some y ∧ x ≤ y ∧ y ∈ l := by
  intro l
  induction l with
  | nil =>
    intro _ x hx
    simp at hx
  | cons a t ih =>
    intro hp x hx
    cases t with
    | nil =>
      rw [List.mem_singleton] at hx
      exact ⟨a, by simp, le_of_eq hx, by simp⟩
    | cons b t' =>
      have hp' : (b :: t').Pairwise (· ≤ ·) := List.Pairwise.of_cons hp
      rcases List.mem_cons.mp hx with hxa | hxt
      · obtain ⟨y, hy, _, hymem⟩ := ih hp' (List.mem_cons_self b t')
        have hay : a ≤ y := (List.pairwise_cons.mp hp).1 y hymem
        exact ⟨y, by rw [List.getLast?_cons_cons]; exact hy, hxa ▸ hay,
          List.mem_cons_of_mem a hymem⟩
      · obtain ⟨y, hy, hxy, hymem⟩ := ih hp' hxt
        exact ⟨y, by rw [List.getLast?_cons_cons]; exact hy, hxy,
          List.mem_cons_of_mem a hymem⟩

lemma progressList_pairwise (n m : ℕ) : (progressList n m).Pairwise (· ≤ ·) := by
  rw [progressList]
  refine List.pairwise_cons.mpr ⟨?_, ?_⟩
  · intro p hp
    obtain ⟨f, _, rfl⟩ := List.mem_map.mp hp
    positivity
  · rw [List.pairwise_map]
    have hr : (List.range n).Pairwise (· < ·) := List.pairwise_lt_range n
    have hf := hr.filter (fun f => decide ((f + 1) % m = 0))
    apply hf.imp
    intro a b hab
    have hc : ((a + 1 : ℕ) : ℚ) ≤ ((b + 1 : ℕ) : ℚ) := by
      exact_mod_cast Nat.succ_le_succ hab.le
    gcongr

lemma progressList_bounds (n m : ℕ) (hn : 0 < n) :
    ∀ p ∈ progressList n m, 0 ≤ p ∧ p ≤ 1 := by
  intro p hp
  have hn0 : (0 : ℚ) < (n : ℚ) := by exact_mod_cast hn
  rw [progressList] at hp
  rcases List.mem_cons.mp hp with hp0 | hpm
  · rw [hp0]
    norm_num
  · obtain ⟨f, hf, rfl⟩ := List.mem_map.mp hpm
    have hfn : f < n := List.mem_range.mp (List.mem_of_mem_filter hf)
    constructor
    · positivity
    · rw [div_le_one hn0]
      exact_mod_cast hfn

lemma progressList_last (n m : ℕ) (hn : 0 < n) (hm1 : 1 ≤ m) (hmn : m ≤ n) :
    ∃ last, (progressList n m).getLast? = some last ∧
      1 - (m : ℚ) / (n : ℚ) ≤ last := by
  have hn0 : (0 : ℚ) < (n : ℚ) := by exact_mod_cast hn
  have hdiv1 : 1 ≤ n / m := (Nat.one_le_div_iff (by omega)).mpr hmn
  have hk1 : 1 ≤ m * (n / m) := by
    have := Nat.mul_le_mul hm1 hdiv1
    omega
  have hkn : m * (n / m) ≤ n := by
    rw [Nat.mul_comm]
    exact Nat.div_mul_le_self n m
  have hnk : n < m * (n / m) + m := by
    have hmod := Nat.mod_add_div n m
    have hlt := Nat.mod_lt n (show 0 < m by omega)
    omega
  have hmem : ((m * (n / m) : ℕ) : ℚ) / (n : ℚ) ∈ progressList n m := by
    rw [progressList]
    apply List.mem_cons_of_mem
    apply List.mem_map.mpr
    refine ⟨m * (n / m) - 1, ?_, ?_⟩
    · apply List.mem_filter.mpr
      refine ⟨List.mem_range.mpr (by omega), ?_⟩
      have heq : m * (n / m) - 1 + 1 = m * (n / m) := by omega
      simp [heq, Nat.mul_mod_right]
    · have heq : m * (n / m) - 1 + 1 = m * (n / m) := by omega
      rw [heq]
  obtain ⟨y, hy, hxy, _⟩ := pairwise_le_getLast (progressList_pairwise n m) hmem
  refine ⟨y, hy, le_trans ?_ hxy⟩
  have hcast : (n : ℚ) < ((m * (n / m) : ℕ) : ℚ) + (m : ℚ) := by exact_mod_cast hnk
  have hfs : 1 - (m : ℚ) / (n : ℚ) = ((n : ℚ) - (m : ℚ)) / (n : ℚ) := by
    field_simp
  rw [hfs]
  gcongr
  linarith

/-- C6: over a successful generation run, the progress values emitted in
Recording states (starting from the initial Recording 0) are non-decreasing
and lie in [0, 1], and the final reported value before the Done transition is
at least 1 - updateStep/totalFrames (1.0 up to one update interval). -/
theorem progress_monotone (env : GenEnv) (mt : MediaType) (d : ℚ)
    (h1 : env.ctxOk = true) (h2 : mt = MediaType.image → env.imageLoadOk = true)
    (h3 : env.recorderThrows = false) :
    (progressValues (genTrace env mt d)).Chain' (· ≤ ·) ∧
    (∀ p ∈ progressValues (genTrace env mt d), 0 ≤ p ∧ p ≤ 1) ∧
    (∃ last, (progressValues (genTrace env mt d)).getLast? = some last ∧
      1 - (updateStep (totalFrames d) : ℚ) / ((totalFrames d : ℕ) : ℚ) ≤ last) := by
  rw [progressValues_success env mt d h1 h2 h3]
  have hn := totalFrames_pos d
  have hm1 : 1 ≤ updateStep (totalFrames d) := le_max_left _ _
  have hmn : updateStep (totalFrames d) ≤ totalFrames d :=
    max_le hn (Nat.div_le_self _ 50)
  refine ⟨?_, progressList_bounds _ _ hn, progressList_last _ _ hn hm1 hmn⟩
  exact List.chain'_iff_pairwise.mpr (progressList_pairwise _ _)

/-- Witness for `progress_monotone` at a concrete environment. -/
theorem progress_monotone_witness :
    (⟨true, true, fun _ => true, false, [], 7⟩ : GenEnv).ctxOk = true ∧
    (progressValues (genTrace ⟨true, true, fun _ => true, false, [], 7⟩
      MediaType.image 5)).Chain' (· ≤ ·) :=
  ⟨rfl, (progress_monotone ⟨true, true, fun _ => true, false, [], 7⟩ MediaType.image 5
    rfl (fun _ => rfl) rfl).1⟩
